import Mathlib

/-!
Shallow embedding of the transit-query backend (the transport router):
cache helpers, EFA date/time parsing, duration arithmetic, coordinate
extraction, shape normalization, result classification, and the
route/station/departure builders, together with theorems checking the
specification's claims against these definitions.

Modelling conventions:
* JavaScript `Date` values are modelled as integers counting milliseconds
  from the local calendar origin 0000-01-01T00:00.  That is an affine
  shift of the Unix epoch; every use in the source is a difference or a
  validity test, so the choice of origin is immaterial.
* `null`/`undefined` results are modelled with `Option`.
* JavaScript numbers are modelled exactly: integers as `Int`, parsed
  floating-point literals as rationals.  Float64 rounding is not
  modelled; it does not affect any NaN-ness, sign or ordering fact the
  claims are about.
-/

/-- Gregorian leap-year test. -/
def isLeapYear (y : Nat) : Bool :=
  y % 4 == 0 && (y % 100 != 0 || y % 400 == 0)

/-- Number of days in month `m` (1-12) of year `y`. -/
def daysInMonth (y m : Nat) : Nat :=
  if m = 2 then (if isLeapYear y then 29 else 28)
  else if m = 4 ∨ m = 6 ∨ m = 9 ∨ m = 11 then 30
  else 31

/-- Days in the months of year `y` strictly before month `m`. -/
def daysBeforeMonth (y m : Nat) : Nat :=
  (List.range (m - 1)).foldl (fun a i => a + daysInMonth y (i + 1)) 0

/-- Number of leap years strictly before year `y` (year 0 is a leap year). -/
def leapYearsBefore (y : Nat) : Nat :=
  if y = 0 then 0 else (y - 1) / 4 - (y - 1) / 100 + (y - 1) / 400 + 1

/-- Day index of the civil date `y-m-d` counted from 0000-01-01. -/
def dayNumber (y m d : Nat) : Nat :=
  365 * y + leapYearsBefore y + daysBeforeMonth y m + (d - 1)

/-- Milliseconds of a civil local date-time from the origin 0000-01-01T00:00. -/
def msOfCivil (y mo d h mi se : Nat) : Int :=
  ((dayNumber y mo d) * 86400000 + h * 3600000 + mi * 60000 + se * 1000 : Nat)

/-- Numeric value of a decimal digit character. -/
def digitVal (c : Char) : Nat := c.toNat - 48

/-- Model of `new Date(string)` restricted to the date-time string format
`YYYY-MM-DDTHH:MM:SS` (no timezone suffix, interpreted as local time),
which is the only shape `parseEfaDateTime` ever composes.  Out-of-range
components make the date invalid (`none`), matching ECMAScript's
validation of the Date Time String Format; hour 24 is accepted exactly
as 24:00:00. -/
def jsDateParse (s : String) : Option Int :=
  match s.data with
  | [y1, y2, y3, y4, s1, mo1, mo2, s2, d1, d2, s3, h1, h2, s4, mi1, mi2, s5, se1, se2] =>
    if s1 = '-' ∧ s2 = '-' ∧ s3 = 'T' ∧ s4 = ':' ∧ s5 = ':' ∧
        y1.isDigit ∧ y2.isDigit ∧ y3.isDigit ∧ y4.isDigit ∧
        mo1.isDigit ∧ mo2.isDigit ∧ d1.isDigit ∧ d2.isDigit ∧
        h1.isDigit ∧ h2.isDigit ∧ mi1.isDigit ∧ mi2.isDigit ∧
        se1.isDigit ∧ se2.isDigit then
      let y := digitVal y1 * 1000 + digitVal y2 * 100 + digitVal y3 * 10 + digitVal y4
      let mo := digitVal mo1 * 10 + digitVal mo2
      let d := digitVal d1 * 10 + digitVal d2
      let h := digitVal h1 * 10 + digitVal h2
      let mi := digitVal mi1 * 10 + digitVal mi2
      let se := digitVal se1 * 10 + digitVal se2
      if 1 ≤ mo ∧ mo ≤ 12 ∧ 1 ≤ d ∧ d ≤ daysInMonth y mo ∧ se ≤ 59 ∧
          ((h ≤ 23 ∧ mi ≤ 59) ∨ (h = 24 ∧ mi = 0 ∧ se = 0)) then
        some (msOfCivil y mo d h mi se)
      else none
    else none
  | _ => none

/-- JavaScript `padStart(2, '0')`. -/
def jsPadStart2 (s : String) : String :=
  if s.length ≥ 2 then s else String.mk (List.replicate (2 - s.length) '0' ++ s.data)

/-- A raw EFA `dateTime` object: five text fields, each possibly absent
(or of a non-string type, which the source treats the same way). -/
structure EfaDateTime where
  year : Option String
  month : Option String
  day : Option String
  hour : Option String
  minute : Option String
deriving DecidableEq

/-- The `YYYY-MM-DDTHH:MM:00` string composed by `parseEfaDateTime`
(month, day, hour and minute zero-padded to two digits). -/
def composeEfaDateString (y mo d h mi : String) : String :=
  y ++ "-" ++ jsPadStart2 mo ++ "-" ++ jsPadStart2 d ++ "T" ++
    jsPadStart2 h ++ ":" ++ jsPadStart2 mi ++ ":00"

/-- `parseEfaDateTime`: returns `none` unless all five fields are present
strings; otherwise composes the padded date string and delegates to
`new Date` (modelled by `jsDateParse`), returning `none` on an invalid
date.  The surrounding `try`/`catch` in the source never fires in this
pure model. -/
def parseEfaDateTime (efaDateTime : Option EfaDateTime) : Option Int :=
  match efaDateTime with
  | none => none
  | some f =>
    match f.year, f.month, f.day, f.hour, f.minute with
    | some y, some mo, some d, some h, some mi =>
      jsDateParse (composeEfaDateString y mo d h mi)
    | _, _, _, _, _ => none

/-- `calculateDurationMinutes`: `null` on invalid/absent dates or a
negative difference, otherwise `Math.round(diffMillis / 60000)`.  For a
nonnegative numerator, rounding half up equals adding 30000 and taking
the integer quotient by 60000. -/
def calculateDurationMinutes (startDate endDate : Option Int) : Option Int :=
  match startDate, endDate with
  | some s, some e =>
    let diffMillis := e - s
    if diffMillis < 0 then none
    else some ((diffMillis + 30000) / 60000)
  | _, _ => none

/-- A JavaScript number that is not NaN: a finite value, stored exactly
as a scaled decimal `m * 10 ^ e` (the value a float64 would round), or
one of the two infinities.  `JSNum.val` interprets it as a rational. -/
inductive JSNum where
  | num (m : Int) (e : Int)
  | posInf
  | negInf
deriving DecidableEq

/-- Exact rational value of a finite `JSNum`; `none` for the infinities. -/
def JSNum.val : JSNum → Option ℚ
  | .num m e => some (if 0 ≤ e then (m : ℚ) * (10 : ℚ) ^ e.toNat else (m : ℚ) / (10 : ℚ) ^ (-e).toNat)
  | _ => none

/-- Whitespace characters skipped by `parseFloat`. -/
def jsWhitespace : List Char := [' ', '\t', '\n', '\r', '\x0b', '\x0c']

/-- Numeric value of a list of decimal digit characters. -/
def digitsToNat (ds : List Char) : Nat :=
  ds.foldl (fun a c => 10 * a + digitVal c) 0

/-- Parse an optional exponent part `e`/`E` with optional sign; if no
digits follow, the exponent part is not consumed and contributes 0. -/
def parseExponent (cs : List Char) : Int :=
  match cs with
  | c :: rest =>
    if c = 'e' ∨ c = 'E' then
      match rest with
      | s :: rest2 =>
        if s = '+' ∨ s = '-' then
          let ds := rest2.takeWhile Char.isDigit
          if ds = [] then 0
          else if s = '-' then -(digitsToNat ds : Int) else (digitsToNat ds : Int)
        else
          let ds := rest.takeWhile Char.isDigit
          if ds = [] then 0 else (digitsToNat ds : Int)
      | [] => 0
    else 0
  | [] => 0

/-- Parse the longest unsigned decimal-literal prefix:
`digits [. digits] [exponent]` or `. digits [exponent]`, returned as
mantissa and decimal exponent; `none` when no digit is found before the
exponent position (the NaN case). -/
def parseUnsignedDecimal (cs : List Char) : Option (Nat × Int) :=
  let ip := cs.takeWhile Char.isDigit
  let r1 := cs.dropWhile Char.isDigit
  match r1 with
  | '.' :: r2 =>
    let fp := r2.takeWhile Char.isDigit
    let r3 := r2.dropWhile Char.isDigit
    if ip = [] ∧ fp = [] then none
    else some (digitsToNat (ip ++ fp), parseExponent r3 - fp.length)
  | _ =>
    if ip = [] then none
    else some (digitsToNat ip, parseExponent r1)

/-- Model of JavaScript `parseFloat`: skip leading whitespace, read an
optional sign, accept an `Infinity` prefix, else parse the longest
decimal-literal prefix; `none` models NaN. -/
def jsParseFloat (s : String) : Option JSNum :=
  let cs := s.data.dropWhile (fun c => c ∈ jsWhitespace)
  let signed : Bool × List Char :=
    match cs with
    | '-' :: r => (true, r)
    | '+' :: r => (false, r)
    | _ => (false, cs)
  let neg := signed.1
  let rest := signed.2
  if rest.take 8 = "Infinity".data then
    some (if neg then JSNum.negInf else JSNum.posInf)
  else
    match parseUnsignedDecimal rest with
    | some me => some (JSNum.num (if neg then -(me.1 : Int) else (me.1 : Int)) me.2)
    | none => none

/-- JavaScript `String.prototype.split(",")`: the list of (possibly
empty) chunks between commas; the empty string yields one empty chunk. -/
def splitOnComma (cs : List Char) : List (List Char) :=
  match cs with
  | [] => [[]]
  | c :: rest =>
    let r := splitOnComma rest
    if c = ',' then [] :: r
    else
      match r with
      | h :: t => (c :: h) :: t
      | [] => [[c]]

/-- `extractCoords`: takes the `coords` string of a point reference (or
`none` when the reference or its `coords` field is missing; the empty
string is falsy and also rejected), splits on the comma, requires
exactly two parts, parses them with `parseFloat` as longitude then
latitude, and returns the pair swapped to `(lat, lon)`; `none` whenever
the split does not give exactly two parts or either part is NaN. -/
def extractCoords (coords : Option String) : Option (JSNum × JSNum) :=
  match coords with
  | none => none
  | some c =>
    if c = "" then none
    else
      let parts := splitOnComma c.data
      if h : parts.length = 2 then
        let lon := jsParseFloat (String.mk (parts.get ⟨0, by omega⟩))
        let lat := jsParseFloat (String.mk (parts.get ⟨1, by omega⟩))
        match lat, lon with
        | some la, some lo => some (la, lo)
        | _, _ => none
      else none

/-- A provider JSON field that may be entirely absent (`undefined`/`null`),
a bare object, or an array of objects. -/
inductive EfaField (α : Type) where
  | absent
  | obj (a : α)
  | arr (elems : List α)
deriving DecidableEq

/-- Shape normalization at the trips site:
`if (efaData.trips) { tripsArray = Array.isArray(trips) ? trips : [trips] }`
(an absent field fails the guard, so no trip is processed). -/
def tripsArray {α : Type} : EfaField α → List α
  | .absent => []
  | .arr l => l
  | .obj a => [a]

/-- Shape normalization at the legs site:
`Array.isArray(trip.legs) ? trip.legs : (trip.legs ? [trip.legs] : [])`. -/
def legsArray {α : Type} : EfaField α → List α
  | .arr l => l
  | .obj a => [a]
  | .absent => []

/-- Shape normalization at the departure-list site:
`if (efaData.departureList) { ... Array.isArray(list) ? list : [list] }`. -/
def departureListArray {α : Type} : EfaField α → List α
  | .absent => []
  | .arr l => l
  | .obj a => [a]

/-- A stop point of a leg; only the fields the claims mention are kept. -/
structure Point where
  dateTime : Option EfaDateTime
deriving DecidableEq

/-- One leg of a trip.  `points` may be missing or empty, in which case
both endpoint lookups yield `undefined`. -/
structure Leg where
  points : List Point
deriving DecidableEq

/-- One trip of the provider payload. -/
structure Trip where
  duration : Option String
  legs : EfaField Leg
deriving DecidableEq

/-- `leg.points?.[0]`, parsed: departure instant of a leg. -/
def depInstant (leg : Leg) : Option Int :=
  parseEfaDateTime (leg.points.head?.bind Point.dateTime)

/-- `leg.points?.[leg.points.length - 1]`, parsed: arrival instant. -/
def arrInstant (leg : Leg) : Option Int :=
  parseEfaDateTime (leg.points.getLast?.bind Point.dateTime)

/-- The body of `legsArray.forEach` restricted to the duration state:
the accumulated `calculatedTotalDuration` together with
`previousLegArrivalDateTime`. -/
def legStep (st : Int × Option Int) (leg : Leg) : Int × Option Int :=
  let departureDateTime := depInstant leg
  let arrivalDateTime := arrInstant leg
  let segmentDuration := calculateDurationMinutes departureDateTime arrivalDateTime
  let waitingTime : Option Int :=
    match st.2, departureDateTime with
    | some p, some d => calculateDurationMinutes (some p) (some d)
    | _, _ => none
  let newTotal :=
    match segmentDuration with
    | some sd =>
      st.1 + sd +
        (match waitingTime with
         | some w => if w > 0 then w else 0
         | none => 0)
    | none => st.1
  (newTotal, arrivalDateTime)

/-- `calculatedTotalDuration` after the whole `forEach` over the legs. -/
def calculatedTotalDuration (trip : Trip) : Int :=
  ((legsArray trip.legs).foldl legStep (0, none)).1

/-- The duration field of a built route: `trip.duration || null` at
construction (the empty string is falsy), overwritten by the calculated
total when that total is greater than zero. -/
def routeDuration (trip : Trip) : Option (String ⊕ Int) :=
  let initial : Option (String ⊕ Int) :=
    match trip.duration with
    | some s => if s = "" then none else some (Sum.inl s)
    | none => none
  if calculatedTotalDuration trip > 0 then some (Sum.inr (calculatedTotalDuration trip))
  else initial

/-- An entry of an EFA message list (`{name, value}` with string value). -/
structure MsgEntry where
  name : String
  value : String
deriving DecidableEq

/-- Outcome of the `/route` handler on a fetched payload. -/
inductive RouteOutcome where
  | upstreamError (e : String)
  | ambiguousLocation
  | success (trips : List Trip)
deriving DecidableEq

/-- The `/route` payload fields the classifier inspects. -/
structure RoutePayload where
  error : Option String
  originMessage : EfaField MsgEntry
  destMessage : EfaField MsgEntry
  trips : EfaField Trip
deriving DecidableEq

/-- `originMsg`/`destMsg` ambiguity test: the message field must be an
array containing an entry with name `code` and value `-8011`. -/
def msgAmbiguous : EfaField MsgEntry → Bool
  | .arr l => l.any (fun m => m.name == "code" && m.value == "-8011")
  | _ => false

/-- JavaScript truthiness of an object-or-array field (note that an
empty array is truthy). -/
def efaTruthy {α : Type} : EfaField α → Bool
  | .absent => false
  | _ => true

/-- Classification in the `/route` handler, in source order: the
top-level `efaData.error` throw, then the ambiguity check
`(originAmbiguous || destAmbiguous) && !efaData.trips`, then success
(whose trips the builder processes). -/
def classifyRoute (p : RoutePayload) : RouteOutcome :=
  match p.error with
  | some e => .upstreamError e
  | none =>
    let originAmbiguous := msgAmbiguous p.originMessage
    let destAmbiguous := msgAmbiguous p.destMessage
    if (originAmbiguous || destAmbiguous) && !(efaTruthy p.trips) then .ambiguousLocation
    else .success (tripsArray p.trips)

/-- The `departureMonitor.message` field: an array of `{name, value}`
entries, a bare object (whose `code` is compared numerically), or
absent. -/
inductive DmMessage where
  | absent
  | arr (elems : List MsgEntry)
  | obj (code : Option Int)
deriving DecidableEq

/-- The stop-not-found test of the `/departures` handler. -/
def stopNotFound : DmMessage → Bool
  | .arr l => l.any (fun m => m.name == "code" && (m.value == "-3010" || m.value == "-3011"))
  | .obj c => c == some (-3010) || c == some (-3011)
  | .absent => false

/-- One raw departure entry; only the fields the delay computation reads
are kept. -/
structure DepRecord where
  delay : Option Int
  dateTime : Option EfaDateTime
  realDateTime : Option EfaDateTime
deriving DecidableEq

/-- The delay computation of the departure builder: `dep.delay || 0`
(a missing figure and the falsy figure 0 both give 0), then, when both
instants parse and the figure is exactly zero, the recomputed difference
is used if it is strictly positive. -/
def delayMinutes (dep : DepRecord) : Int :=
  let scheduledDateTime := parseEfaDateTime dep.dateTime
  let realDateTime := parseEfaDateTime dep.realDateTime
  let d0 : Int := dep.delay.getD 0
  if realDateTime.isSome ∧ scheduledDateTime.isSome ∧ d0 = 0 then
    match calculateDurationMinutes scheduledDateTime realDateTime with
    | some calculatedDelay => if calculatedDelay > 0 then calculatedDelay else d0
    | none => d0
  else d0

/-- A built departure record; fields other than the delay are not
referenced by any claim and are omitted. -/
structure Departure where
  delay : Int
deriving DecidableEq

/-- The departure builder applied to one raw entry. -/
def buildDeparture (dep : DepRecord) : Departure :=
  { delay := delayMinutes dep }

/-- The `/departures` payload fields the handler inspects. -/
structure DeparturesPayload where
  error : Option String
  dmMessage : DmMessage
  departureList : EfaField DepRecord
deriving DecidableEq

/-- Outcome of the `/departures` handler on a fetched payload. -/
inductive DepOutcome where
  | notFound
  | upstreamError (e : String)
  | success (deps : List Departure)
deriving DecidableEq

/-- Classification in the `/departures` handler, in source order: the
stop-not-found check runs first and returns 404 before the generic
`efaData.error` throw; otherwise the departure list is normalized and
built. -/
def classifyDepartures (p : DeparturesPayload) : DepOutcome :=
  if stopNotFound p.dmMessage then .notFound
  else
    match p.error with
    | some e => .upstreamError e
    | none => .success ((departureListArray p.departureList).map buildDeparture)

/-- Behavior of one cache `GET`, as seen by `getFromCache`: the client
connection may not be ready, the operation may fail, or it returns a hit
or a miss. -/
inductive CacheGet (V : Type) where
  | notReady
  | opError
  | found (v : V)
  | missing
deriving DecidableEq

/-- `getFromCache`: a not-ready client and a failed operation are both
logged and turned into `null`, indistinguishable from a miss. -/
def getFromCache {V : Type} : CacheGet V → Option V
  | .notReady => none
  | .opError => none
  | .found v => some v
  | .missing => none

/-- Behavior of one cache `SET`, as seen by `setInCache`. -/
inductive CacheSet where
  | notReady
  | opError
  | ok
deriving DecidableEq

/-- The store effect of `setInCache`: what ends up cached.  A not-ready
client and a failed operation are logged and ignored, storing nothing;
the function itself returns nothing either way. -/
def setInCache {V : Type} (b : CacheSet) (v : V) : Option V :=
  match b with
  | .ok => some v
  | .notReady => none
  | .opError => none

/-- Terminal outcome of one orchestrated query. -/
inductive QueryOutcome (V E : Type) where
  | serveCached (v : V)
  | upstreamUnavailable (e : E)
  | serveFresh (v : V)
deriving DecidableEq

/-- The orchestration skeleton shared by the four handlers: cache lookup
(through `getFromCache`), then the provider fetch, then the cache write
(through `setInCache`) before returning the fresh result.  Returns the
terminal outcome together with the store effect of the write. -/
def processQuery {V E : Type} (g : CacheGet V) (s : CacheSet) (fetch : Except E V) :
    QueryOutcome V E × Option V :=
  match getFromCache g with
  | some v => (.serveCached v, none)
  | none =>
    match fetch with
    | .error e => (.upstreamUnavailable e, none)
    | .ok v => (.serveFresh v, setInCache s v)

/-- A station built by the proximity search; only the fields the sort
reads are kept, plus the name to make stations distinguishable. -/
structure Station where
  name : String
  distance : Option Int
deriving DecidableEq

/-- The sort key of the comparator
`(a, b) => (a.distance || Infinity) - (b.distance || Infinity)`: a
missing distance, and the falsy distance 0, are both `Infinity`,
represented here as `none`. -/
def sortKey (s : Station) : Option Int :=
  match s.distance with
  | some d => if d = 0 then none else some d
  | none => none

/-- The comparator as a boolean order on stations (`none` is `Infinity`;
two infinite keys compare equal, since the comparator's NaN difference
is treated as zero). -/
def keyLe (a b : Station) : Bool :=
  match sortKey a, sortKey b with
  | some x, some y => x ≤ y
  | some _, none => true
  | none, none => true
  | none, some _ => false

/-- Stable insertion of `x` into a sorted list: `x` is placed before the
first element it compares less-or-equal to, hence after any earlier
element with an equal key. -/
def jsSortInsert {α : Type} (le : α → α → Bool) (x : α) : List α → List α
  | [] => [x]
  | y :: ys => if le x y then x :: y :: ys else y :: jsSortInsert le x ys

/-- Model of JavaScript `Array.prototype.sort` with a consistent
comparator: the stable sort by the comparator's order, realized as an
insertion sort. -/
def jsArraySort {α : Type} (le : α → α → Bool) : List α → List α
  | [] => []
  | x :: xs => jsSortInsert le x (jsArraySort le xs)

/-- The conditional sort of the `/stations/nearby` handler: only when
the list is non-empty and its first station has a `distance` field is
the list sorted by the comparator. -/
def nearbySort (stations : List Station) : List Station :=
  match stations with
  | [] => []
  | s0 :: _ =>
    if s0.distance.isSome then jsArraySort keyLe stations
    else stations

/-- Contribution of an available, strictly positive waiting time. -/
def posWait : Option Int → Int
  | some w => if 0 < w then w else 0
  | none => 0

/-- Stated by the claim: the sum of the travel times of every leg whose
travel time is available. -/
def claimedTravelSum (legs : List Leg) : Int :=
  (legs.filterMap (fun l => calculateDurationMinutes (depInstant l) (arrInstant l))).sum

/-- Stated by the claim: for every adjacent leg pair, the waiting time
between the previous leg's arrival and the next leg's departure,
whenever available and strictly positive. -/
def claimedWaitSum : List Leg → Int
  | l1 :: l2 :: ls =>
    posWait (calculateDurationMinutes (arrInstant l1) (depInstant l2)) + claimedWaitSum (l2 :: ls)
  | _ => 0

/-- The total duration as the claim states it: available travel times
plus positive available waits of all adjacent pairs. -/
def claimedTotalDuration (legs : List Leg) : Int :=
  claimedTravelSum legs + claimedWaitSum legs

/-- The amended specification formula: as `claimedTotalDuration`, except
that the waiting time before a leg is added only when that leg's own
travel time is also available (which is what the accumulation in the
source does). -/
def specTotalDuration : Option Int → List Leg → Int
  | _, [] => 0
  | prevArr, l :: ls =>
    (match calculateDurationMinutes (depInstant l) (arrInstant l) with
     | some sd => sd + posWait (calculateDurationMinutes prevArr (depInstant l))
     | none => 0) + specTotalDuration (arrInstant l) ls

/-- A stop point on 2024-05-01 at the given hour and minute strings. -/
def mkPt (h mi : String) : Point :=
  ⟨some ⟨some "2024", some "5", some "1", some h, some mi⟩⟩

/-- Two legs with travel times 10 and 15 minutes and a 5-minute gap. -/
def trip30 : Trip :=
  ⟨none, .arr [⟨[mkPt "10" "0", mkPt "10" "10"]⟩, ⟨[mkPt "10" "15", mkPt "10" "30"]⟩]⟩

/-- Two legs with travel times 10 and 15 minutes and a 0-minute gap. -/
def trip25 : Trip :=
  ⟨none, .arr [⟨[mkPt "10" "0", mkPt "10" "10"]⟩, ⟨[mkPt "10" "10", mkPt "10" "25"]⟩]⟩

/-- A trip whose second leg has a 5-minute positive gap but no parseable
arrival: its travel time is unavailable while its waiting time is
available and positive. -/
def cexTrip : Trip :=
  ⟨none, .arr [⟨[mkPt "10" "0", mkPt "10" "10"]⟩, ⟨[mkPt "10" "15", ⟨none⟩]⟩]⟩

/-- A departure entry with a provider-supplied negative delay figure. -/
def negDelayDep : DepRecord := ⟨some (-3), none, none⟩

/-- 2024-05-01T10:00 as an EFA date-time fragment. -/
def dtTen : EfaDateTime := ⟨some "2024", some "5", some "1", some "10", some "0"⟩

/-- 2024-05-01T10:07 as an EFA date-time fragment. -/
def dtTenOhSeven : EfaDateTime := ⟨some "2024", some "5", some "1", some "10", some "7"⟩

/-- A departure entry with provider delay 0 whose instants are 7 minutes
apart, so the recomputation path fires. -/
def recomputeDep : DepRecord := ⟨some 0, some dtTen, some dtTenOhSeven⟩

/-- A route payload that is ambiguous at the origin, has no trips, and
also carries a top-level technical error. -/
def ambErrPayload : RoutePayload :=
  ⟨some "EFA technical error", .arr [⟨"code", "-8011"⟩], .absent, .absent⟩

/-- A route payload that is ambiguous at the origin only, with no trips
and no top-level error. -/
def ambOkPayload : RoutePayload :=
  ⟨none, .arr [⟨"code", "-8011"⟩], .absent, .absent⟩

/-- A route payload that is ambiguous at the origin but has a (present,
empty-array) trips field. -/
def ambTripsPayload : RoutePayload :=
  ⟨none, .arr [⟨"code", "-8011"⟩], .absent, .arr []⟩

/-- A departures payload whose monitor message list carries the stop-
unknown code -3010 while a top-level technical error is also present. -/
def snfPayload : DeparturesPayload :=
  ⟨some "EFA technical error", .arr [⟨"code", "-3010"⟩], .absent⟩

/-- Stated by the claim: the output order the proximity sort is supposed
to satisfy on a pair — stations with distance values ascend and precede
stations without one. -/
def claimOrderB (a b : Station) : Bool :=
  match a.distance, b.distance with
  | some da, some db => da ≤ db
  | some _, none => true
  | none, none => true
  | none, some _ => false

/-- Stated by the claim: the whole output of the proximity sort is
ordered by `claimOrderB`. -/
def claimSorted (l : List Station) : Prop :=
  l.Pairwise (fun a b => claimOrderB a b = true)

/-- A station 5 meters away. -/
def stationFive : Station := ⟨"A", some 5⟩

/-- A station with the falsy distance 0. -/
def stationZero : Station := ⟨"B", some 0⟩

/-- An unsorted station list whose first element carries a distance. -/
def wStations : List Station := [⟨"A", some 7⟩, ⟨"B", none⟩, ⟨"C", some 3⟩]

/-- Stated by the claim: a returned GeoPoint must consist of two finite
numbers with the latitude in [-90, 90] and the longitude in [-180, 180]. -/
def geoClaimInRange (p : JSNum × JSNum) : Prop :=
  ∃ la lo : ℚ, p.1.val = some la ∧ p.2.val = some lo ∧
    -90 ≤ la ∧ la ≤ 90 ∧ -180 ≤ lo ∧ lo ≤ 180

/-- All five fields of the EFA date-time fragment are present. -/
def allFieldsPresent (f : EfaDateTime) : Bool :=
  f.year.isSome && f.month.isSome && f.day.isSome && f.hour.isSome && f.minute.isSome

/-- A present field consists of decimal digits only (the empty string,
which pads to "00", numbers to 0). -/
def fieldDigits (s : Option String) : Bool :=
  (s.getD "").data.all Char.isDigit

/-- Stated by the claim: all five fields individually parse as integers,
formalized as digit strings (the form the provider delivers; any
non-digit character makes the composed string an invalid date anyway). -/
def allFieldsNumeric (f : EfaDateTime) : Bool :=
  fieldDigits f.year && fieldDigits f.month && fieldDigits f.day &&
    fieldDigits f.hour && fieldDigits f.minute

/-- The composed `YYYY-MM-DDTHH:MM:00` string of a fragment. -/
def composedString (f : EfaDateTime) : String :=
  composeEfaDateString (f.year.getD "") (f.month.getD "") (f.day.getD "")
    (f.hour.getD "") (f.minute.getD "")

example : jsParseFloat "200" = some (JSNum.num 200 0) := by decide
example : jsParseFloat "  -4.5e1" = some (JSNum.num (-45) 0) := by decide
example : jsParseFloat "abc" = none := by decide
example : jsParseFloat "Infinity" = some JSNum.posInf := by decide
example : extractCoords (some "11.35,46.5") =
    some (JSNum.num 465 (-1), JSNum.num 1135 (-2)) := by decide
example : extractCoords (some "abc,46.5") = none := by decide
example : extractCoords (some "1,2,3") = none := by decide
example : calculateDurationMinutes (some 0) (some 600000) = some 10 := by decide
example : calculateDurationMinutes (some 0) (some (-1)) = none := by decide
example : jsDateParse "2024-05-01T10:00:00" = some (msOfCivil 2024 5 1 10 0 0) := by decide
example : jsDateParse "2024-13-01T10:00:00" = none := by decide
example : jsDateParse "2024-02-30T10:00:00" = none := by decide
example :
    parseEfaDateTime (some ⟨some "2024", some "5", some "1", some "10", some "7"⟩) =
      some (msOfCivil 2024 5 1 10 7 0) := by decide
example :
    parseEfaDateTime (some ⟨some "2024", none, some "1", some "10", some "7"⟩) = none := by
  decide

/-- Rounding a nonnegative count of milliseconds to minutes, half up,
equals the integer division used in the model. -/
theorem round_div_60000 (d : Int) :
    round ((d : ℚ) / 60000) = (d + 30000) / 60000 := by
  rw [round_eq]
  have h : (d : ℚ) / 60000 + 1 / 2 = ((2 * d + 60000 : Int) : ℚ) / ((120000 : Nat) : ℚ) := by
    push_cast; ring
  rw [h, Rat.floor_intCast_div_natCast]
  omega

/-- Claim C9 (confirmed): at each of the three shape-normalization sites
(trips, legs within a trip, the departure list) an absent value yields
the empty sequence, a bare object a one-element sequence, and an array
is used unchanged in its original order. -/
theorem shape_normalization_uniform {α : Type} (a : α) (l : List α) :
    (tripsArray (EfaField.absent : EfaField α) = [] ∧ tripsArray (EfaField.obj a) = [a] ∧
      tripsArray (EfaField.arr l) = l) ∧
    (legsArray (EfaField.absent : EfaField α) = [] ∧ legsArray (EfaField.obj a) = [a] ∧
      legsArray (EfaField.arr l) = l) ∧
    (departureListArray (EfaField.absent : EfaField α) = [] ∧
      departureListArray (EfaField.obj a) = [a] ∧
      departureListArray (EfaField.arr l) = l) :=
  ⟨⟨rfl, rfl, rfl⟩, ⟨rfl, rfl, rfl⟩, ⟨rfl, rfl, rfl⟩⟩

/-- Claim C5 (confirmed): a cache get against a not-ready connection or
a failing store behaves exactly as a miss, for any write behavior, and
when the provider fetch succeeds the result is still served fresh; a
failed cache write never changes the outcome. -/
theorem cache_fail_open {V E : Type} (s s2 : CacheSet) (f : Except E V) :
    (processQuery CacheGet.notReady s f).1 = (processQuery CacheGet.missing s2 f).1 ∧
    (processQuery CacheGet.opError s f).1 = (processQuery CacheGet.missing s2 f).1 ∧
    ∀ v : V, (processQuery CacheGet.notReady s (Except.ok v : Except E V)).1 =
        QueryOutcome.serveFresh v ∧
      (processQuery CacheGet.opError s (Except.ok v : Except E V)).1 =
        QueryOutcome.serveFresh v := by
  cases f <;> simp [processQuery, getFromCache]

/-- Claim C2 (confirmed): a departure-monitor message list containing
status code -3010 or -3011 classifies the query as stop-not-found, and
that check runs before — and takes precedence over — the generic
top-level error mapping, whatever the error field holds. -/
theorem departures_stop_not_found_first (p : DeparturesPayload) (l : List MsgEntry)
    (hl : p.dmMessage = DmMessage.arr l)
    (hm : ∃ m ∈ l, m.name = "code" ∧ (m.value = "-3010" ∨ m.value = "-3011")) :
    classifyDepartures p = DepOutcome.notFound := by
  have hsnf : stopNotFound p.dmMessage = true := by
    rw [hl]
    simp only [stopNotFound, List.any_eq_true]
    obtain ⟨m, hmem, hname, hval⟩ := hm
    refine ⟨m, hmem, ?_⟩
    rcases hval with h | h <;> simp [hname, h]
  simp [classifyDepartures, hsnf]

/-- Witness for the stop-not-found precedence claim: the concrete
payload also carries a top-level technical error. -/
theorem departures_stop_not_found_first_witness :
    (snfPayload.dmMessage = DmMessage.arr [⟨"code", "-3010"⟩] ∧
      (∃ m ∈ [(⟨"code", "-3010"⟩ : MsgEntry)],
        m.name = "code" ∧ (m.value = "-3010" ∨ m.value = "-3011")) ∧
      snfPayload.error = some "EFA technical error") ∧
    classifyDepartures snfPayload = DepOutcome.notFound :=
  ⟨⟨rfl, by decide, rfl⟩,
    departures_stop_not_found_first snfPayload [⟨"code", "-3010"⟩] rfl (by decide)⟩

/-- Claim C6 counterexample: a payload whose origin message list carries
the ambiguity code -8011 and whose trips field is absent is nevertheless
not classified as ambiguous location when a top-level technical error is
also present, because the error check runs first. -/
theorem route_ambiguity_claim_cex :
    ambErrPayload.originMessage = EfaField.arr [⟨"code", "-8011"⟩] ∧
    ambErrPayload.trips = EfaField.absent ∧
    classifyRoute ambErrPayload ≠ RouteOutcome.ambiguousLocation := by decide

/-- Claim C6 (amended): provided the payload carries no top-level
technical error, an origin or destination message entry with name
`code` and value `-8011` together with an absent trips field classifies
as ambiguous location — even when only one endpoint is ambiguous — and
a payload whose trips field is present is never classified as
ambiguous. -/
theorem route_ambiguity_amended (p q : RoutePayload)
    (he : p.error = none)
    (ha : ∃ l, (p.originMessage = EfaField.arr l ∨ p.destMessage = EfaField.arr l) ∧
      ∃ m ∈ l, m.name = "code" ∧ m.value = "-8011")
    (ht : p.trips = EfaField.absent)
    (hq : efaTruthy q.trips = true) :
    classifyRoute p = RouteOutcome.ambiguousLocation ∧
    classifyRoute q ≠ RouteOutcome.ambiguousLocation := by
  constructor
  · have hamb : msgAmbiguous p.originMessage = true ∨ msgAmbiguous p.destMessage = true := by
      obtain ⟨l, hl, m, hmem, hname, hval⟩ := ha
      rcases hl with hl | hl
      · left
        rw [hl]
        simp only [msgAmbiguous, List.any_eq_true]
        exact ⟨m, hmem, by simp [hname, hval]⟩
      · right
        rw [hl]
        simp only [msgAmbiguous, List.any_eq_true]
        exact ⟨m, hmem, by simp [hname, hval]⟩
    unfold classifyRoute
    rw [he, ht]
    rcases hamb with h | h <;> simp [h, efaTruthy]
  · intro hcontra
    unfold classifyRoute at hcontra
    rcases hqe : q.error with _ | e
    · rw [hqe] at hcontra
      rw [hq] at hcontra
      simp at hcontra
    · rw [hqe] at hcontra
      simp at hcontra

/-- Witness for the amended ambiguity claim: an origin-only ambiguous
payload without error, and a payload with a present (empty-array) trips
field. -/
theorem route_ambiguity_amended_witness :
    (ambOkPayload.error = none ∧ ambOkPayload.trips = EfaField.absent ∧
      efaTruthy ambTripsPayload.trips = true) ∧
    classifyRoute ambOkPayload = RouteOutcome.ambiguousLocation ∧
    classifyRoute ambTripsPayload ≠ RouteOutcome.ambiguousLocation :=
  ⟨⟨rfl, rfl, rfl⟩,
    route_ambiguity_amended ambOkPayload ambTripsPayload rfl
      ⟨[⟨"code", "-8011"⟩], Or.inl rfl, by decide⟩ rfl rfl⟩

/-- Claim C4 counterexample: a provider-supplied negative delay figure
is passed through unchanged, so the built departure has delay -3 < 0,
refuting the claimed invariant delay ≥ 0. -/
theorem departure_delay_claim_cex :
    (buildDeparture negDelayDep).delay = -3 ∧ ¬ (0 ≤ (buildDeparture negDelayDep).delay) := by
  decide

/-- Claim C4 (amended): the delay is computed by first trusting the
provider-supplied figure and, only when that figure is exactly zero with
both instants available, replacing it with the recomputed difference
when strictly positive; the result is nonnegative whenever the
provider-supplied figure is absent or nonnegative (a negative provider
figure is passed through unchanged). -/
theorem departure_delay_amended (dep : DepRecord) (h : 0 ≤ dep.delay.getD 0) :
    0 ≤ (buildDeparture dep).delay := by
  unfold buildDeparture delayMinutes
  dsimp only
  split
  · split
    · split
      · omega
      · exact h
    · exact h
  · exact h

/-- Witness for the amended delay claim: provider delay 0 with instants
7 minutes apart, so the recomputation path produces the delay. -/
theorem departure_delay_amended_witness :
    (0 ≤ recomputeDep.delay.getD 0 ∧ (buildDeparture recomputeDep).delay = 7) ∧
    0 ≤ (buildDeparture recomputeDep).delay :=
  ⟨⟨by decide, by decide⟩, departure_delay_amended recomputeDep (by decide)⟩

/-- Claim C8 (confirmed): the duration is unavailable exactly when an
instant is absent or the end precedes the start, and otherwise equals
the difference rounded to whole minutes, which is never negative. -/
theorem calculateDurationMinutes_spec (a b : Option Int) :
    calculateDurationMinutes a b =
      (match a, b with
       | some s, some e => if e < s then none else some (round ((e - s : ℚ) / 60000))
       | _, _ => none) ∧
    0 ≤ (calculateDurationMinutes a b).getD 0 := by
  rcases a with _ | s
  · exact ⟨rfl, le_refl 0⟩
  · rcases b with _ | e
    · exact ⟨rfl, le_refl 0⟩
    · constructor
      · unfold calculateDurationMinutes
        dsimp only
        by_cases hlt : e - s < 0
        · rw [if_pos hlt, if_pos (by omega)]
        · rw [if_neg hlt, if_neg (by omega)]
          have hcast : ((e : ℚ) - (s : ℚ)) = ((e - s : Int) : ℚ) := by push_cast; ring
          rw [hcast, round_div_60000]
      · unfold calculateDurationMinutes
        dsimp only
        by_cases hlt : e - s < 0
        · rw [if_pos hlt]
          exact le_refl 0
        · rw [if_neg hlt]
          simp only [Option.getD_some]
          omega

/-- The guarded wait computation inside the leg loop equals the duration
helper applied to the optional instants. -/
theorem legStep_wait_eq (p dep : Option Int) :
    (match p, dep with
     | some pp, some dd => calculateDurationMinutes (some pp) (some dd)
     | _, _ => none) = calculateDurationMinutes p dep := by
  rcases p with _ | pv <;> rcases dep with _ | dv <;> rfl

/-- The fold of `legStep` accumulates exactly the amended per-leg
contributions on top of the starting total, threading the previous
arrival instant. -/
theorem foldl_legStep_eq (legs : List Leg) : ∀ (t : Int) (p : Option Int),
    (legs.foldl legStep (t, p)).1 = t + specTotalDuration p legs := by
  induction legs with
  | nil => intro t p; simp [specTotalDuration]
  | cons l ls ih =>
    intro t p
    rw [List.foldl_cons]
    have hstep : legStep (t, p) l =
        (t + (match calculateDurationMinutes (depInstant l) (arrInstant l) with
          | some sd => sd + posWait (calculateDurationMinutes p (depInstant l))
          | none => 0), arrInstant l) := by
      unfold legStep
      dsimp only
      rw [legStep_wait_eq]
      rcases hsd : calculateDurationMinutes (depInstant l) (arrInstant l) with _ | sd
      · simp [posWait]
      · rcases hw : calculateDurationMinutes p (depInstant l) with _ | w
        · simp [posWait]
        · simp only [posWait]
          ring_nf
    rw [hstep, ih]
    show _ = t + specTotalDuration p (l :: ls)
    rw [specTotalDuration]
    ring

/-- Claim C1 (amended): the accumulated trip total equals the claimed
formula amended so that the waiting time before a leg is added only when
that leg's own travel time is also available; the accumulated total
replaces the provider-supplied duration exactly when it is greater than
zero; and the two concrete examples of the claim hold (travel times 10
and 15 with a 5-minute gap give 30, with a 0-minute gap 25). -/
theorem itinerary_total_amended (trip : Trip) :
    calculatedTotalDuration trip = specTotalDuration none (legsArray trip.legs) ∧
    (routeDuration trip = some (Sum.inr (calculatedTotalDuration trip)) ↔
      0 < calculatedTotalDuration trip) ∧
    calculatedTotalDuration trip30 = 30 ∧ calculatedTotalDuration trip25 = 25 := by
  refine ⟨?_, ?_, by decide, by decide⟩
  · unfold calculatedTotalDuration
    rw [foldl_legStep_eq]
    ring
  · unfold routeDuration
    by_cases h : calculatedTotalDuration trip > 0
    · simp [h]
    · rw [if_neg h]
      rcases trip.duration with _ | s
      · simp
        omega
      · dsimp only
        by_cases hs : s = ""
        · simp [hs]
          omega
        · rw [if_neg hs]
          constructor
          · intro hcontra
            simp at hcontra
          · intro hpos
            omega

/-- Claim C1 counterexample: in `cexTrip` the waiting time before the
second leg is available and positive (5 minutes) while that leg's travel
time is unavailable, so the claimed formula gives 15 but the accumulated
total is 10. -/
theorem itinerary_total_claim_cex :
    calculatedTotalDuration cexTrip = 10 ∧
    claimedTotalDuration (legsArray cexTrip.legs) = 15 ∧
    calculatedTotalDuration cexTrip ≠ claimedTotalDuration (legsArray cexTrip.legs) := by
  decide

/-- Stable insertion permutes: the result is the element consed on. -/
theorem jsSortInsert_perm {α : Type} (le : α → α → Bool) (x : α) (l : List α) :
    (jsSortInsert le x l).Perm (x :: l) := by
  induction l with
  | nil => exact List.Perm.refl _
  | cons y ys ih =>
    unfold jsSortInsert
    by_cases h : le x y
    · rw [if_pos h]
    · rw [if_neg h]
      exact (ih.cons y).trans (List.Perm.swap x y ys)

/-- The insertion sort permutes its input. -/
theorem jsArraySort_perm {α : Type} (le : α → α → Bool) (l : List α) :
    (jsArraySort le l).Perm l := by
  induction l with
  | nil => exact List.Perm.refl _
  | cons x xs ih => exact (jsSortInsert_perm le x _).trans (ih.cons x)

/-- Inserting into a sorted list keeps it sorted, for a total transitive
boolean order. -/
theorem jsSortInsert_pairwise {α : Type} (le : α → α → Bool)
    (htotal : ∀ a b, le a b = true ∨ le b a = true)
    (htrans : ∀ a b c, le a b = true → le b c = true → le a c = true)
    (x : α) (l : List α) (hl : l.Pairwise (fun a b => le a b = true)) :
    (jsSortInsert le x l).Pairwise (fun a b => le a b = true) := by
  induction l with
  | nil => simp [jsSortInsert]
  | cons y ys ih =>
    rcases List.pairwise_cons.mp hl with ⟨hy, hys⟩
    unfold jsSortInsert
    by_cases h : le x y
    · rw [if_pos h]
      refine List.pairwise_cons.mpr ⟨?_, hl⟩
      intro b hb
      rcases List.mem_cons.mp hb with rfl | hb'
      · exact h
      · exact htrans x y b h (hy b hb')
    · rw [if_neg h]
      refine List.pairwise_cons.mpr ⟨?_, ih hys⟩
      intro b hb
      have hb' : b = x ∨ b ∈ ys := by
        have hmem := (jsSortInsert_perm le x ys).mem_iff.mp hb
        simpa using hmem
      rcases hb' with rfl | hb'
      · rcases htotal b y with hxy | hyx
        · exact absurd hxy h
        · exact hyx
      · exact hy b hb'

/-- The insertion sort sorts, for a total transitive boolean order. -/
theorem jsArraySort_pairwise {α : Type} (le : α → α → Bool)
    (htotal : ∀ a b, le a b = true ∨ le b a = true)
    (htrans : ∀ a b c, le a b = true → le b c = true → le a c = true)
    (l : List α) : (jsArraySort le l).Pairwise (fun a b => le a b = true) := by
  induction l with
  | nil => simp [jsArraySort]
  | cons x xs ih => exact jsSortInsert_pairwise le htotal htrans x _ ih

/-- The station comparator is total. -/
theorem keyLe_total (a b : Station) : keyLe a b = true ∨ keyLe b a = true := by
  unfold keyLe
  rcases sortKey a with _ | x <;> rcases sortKey b with _ | y <;> simp
  exact le_total x y

/-- The station comparator is transitive. -/
theorem keyLe_trans (a b c : Station) (h1 : keyLe a b = true) (h2 : keyLe b c = true) :
    keyLe a c = true := by
  unfold keyLe at h1 h2 ⊢
  rcases ha : sortKey a with _ | x <;> rcases hb : sortKey b with _ | y <;>
    rcases hc : sortKey c with _ | z <;>
    simp only [ha, hb, hc] at h1 h2 ⊢ <;> simp_all <;> omega

/-- Claim C10 counterexample: with a first station at distance 5 and a
second at the falsy distance 0, the comparator treats 0 as Infinity, the
list stays in order [5, 0], and the stations carrying distance values
are not in ascending order of distance as the claim states. -/
theorem nearby_sort_claim_cex :
    nearbySort [stationFive, stationZero] = [stationFive, stationZero] ∧
    stationFive.distance.isSome = true ∧ stationZero.distance.isSome = true ∧
    ¬ claimSorted (nearbySort [stationFive, stationZero]) := by
  refine ⟨by decide, rfl, rfl, ?_⟩
  unfold claimSorted
  decide

/-- Claim C10 (amended): when the first extracted station carries a
distance value, the returned sequence is a permutation of the input
sorted by the comparator key, under which stations with a nonzero
distance value ascend and precede the rest, while stations with no
distance value or with distance 0 compare as Infinity; when the first
station has no distance value the sequence is returned unchanged. -/
theorem nearby_sort_amended (l : List Station) :
    (∀ s0, l.head? = some s0 → s0.distance.isSome = true →
      (nearbySort l).Pairwise (fun a b => keyLe a b = true) ∧ (nearbySort l).Perm l) ∧
    (∀ s0, l.head? = some s0 → s0.distance = none → nearbySort l = l) := by
  constructor
  · intro s0 h0 hd
    rcases l with _ | ⟨x, xs⟩
    · simp at h0
    · have hx : x = s0 := by simpa using h0
      subst hx
      show (if x.distance.isSome = true then jsArraySort keyLe (x :: xs) else x :: xs).Pairwise _ ∧
        (if x.distance.isSome = true then jsArraySort keyLe (x :: xs) else x :: xs).Perm _
      rw [if_pos hd]
      exact ⟨jsArraySort_pairwise keyLe keyLe_total keyLe_trans _, jsArraySort_perm _ _⟩
  · intro s0 h0 hd
    rcases l with _ | ⟨x, xs⟩
    · rfl
    · have hx : x = s0 := by simpa using h0
      subst hx
      show (if x.distance.isSome = true then jsArraySort keyLe (x :: xs) else x :: xs) = x :: xs
      rw [if_neg (by simp [hd])]

/-- Witness for the amended proximity-sort claim at a concrete list. -/
theorem nearby_sort_amended_witness :
    (wStations.head? = some ⟨"A", some 7⟩ ∧
      (⟨"A", some 7⟩ : Station).distance.isSome = true) ∧
    (nearbySort wStations).Pairwise (fun a b => keyLe a b = true) ∧
    (nearbySort wStations).Perm wStations :=
  ⟨⟨rfl, rfl⟩, (nearby_sort_amended wStations).1 ⟨"A", some 7⟩ rfl rfl⟩

/-- Claim C3 counterexample: the extractor performs no range check, so
the out-of-range input "200,100" yields a point with latitude 100 > 90
instead of the claimed absent result. -/
theorem extractCoords_claim_cex :
    extractCoords (some "200,100") = some (JSNum.num 100 0, JSNum.num 200 0) ∧
    ¬ geoClaimInRange (JSNum.num 100 0, JSNum.num 200 0) := by
  constructor
  · decide
  · rintro ⟨la, lo, hla, hlo, h1, h2, h3, h4⟩
    have hv : JSNum.val (JSNum.num 100 0) = some (100 : ℚ) := by
      norm_num [JSNum.val]
    rw [hv] at hla
    have : la = 100 := (Option.some_inj.mp hla).symm
    rw [this] at h2
    norm_num at h2

/-- The two-part guard with positional access equals the direct match
on the split result. -/
theorem extractCoords_parts (parts : List (List Char)) :
    (if h : parts.length = 2 then
      match jsParseFloat (String.mk (parts.get ⟨1, by omega⟩)),
        jsParseFloat (String.mk (parts.get ⟨0, by omega⟩)) with
      | some la, some lo => some (la, lo)
      | _, _ => none
     else none) =
      (match parts with
       | [p0, p1] =>
         (match jsParseFloat (String.mk p1), jsParseFloat (String.mk p0) with
          | some la, some lo => some (la, lo)
          | _, _ => none)
       | _ => none) := by
  rcases parts with _ | ⟨p0, _ | ⟨p1, _ | ⟨p2, rest⟩⟩⟩
  · rw [dif_neg (by simp)]
  · rw [dif_neg (by simp)]
  · rfl
  · rw [dif_neg (by simp)]

/-- Claim C3 (amended): the extractor returns a pair, with the axes
swapped to (lat, lon) relative to the "lon,lat" input order, exactly
when splitting on the comma yields exactly two parts that both parse as
JavaScript numbers (parseFloat does not reject infinities, numeric
prefixes, or out-of-range values); any other input yields absent, and it
never raises. -/
theorem extractCoords_amended (c : String) :
    extractCoords none = none ∧
    extractCoords (some c) =
      (match splitOnComma c.data with
       | [p0, p1] =>
         (match jsParseFloat (String.mk p1), jsParseFloat (String.mk p0) with
          | some la, some lo => some (la, lo)
          | _, _ => none)
       | _ => none) := by
  refine ⟨rfl, ?_⟩
  by_cases hc : c = ""
  · subst hc
    decide
  · simp only [extractCoords]
    rw [if_neg hc]
    exact extractCoords_parts (splitOnComma c.data)

/-- The characters of a padded string: leading zeros then the original. -/
theorem jsPadStart2_data (s : String) :
    (jsPadStart2 s).data = List.replicate (2 - s.length) '0' ++ s.data := by
  unfold jsPadStart2
  split
  · rename_i hle
    have h0 : 2 - s.length = 0 := by omega
    rw [h0]
    rfl
  · rfl

/-- A padded string has at least two characters. -/
theorem jsPadStart2_data_length (s : String) : 2 ≤ (jsPadStart2 s).data.length := by
  have hd := jsPadStart2_data s
  have hlen : (jsPadStart2 s).data.length =
      (List.replicate (2 - s.length) '0' ++ s.data).length := by rw [hd]
  rw [List.length_append, List.length_replicate] at hlen
  have hsl : s.length = s.data.length := rfl
  omega

/-- If the padded string is all digits, so is the original. -/
theorem digits_of_pad (s : String) (hp : (jsPadStart2 s).data.all Char.isDigit = true) :
    s.data.all Char.isDigit = true := by
  rw [jsPadStart2_data, List.all_append] at hp
  exact (Bool.and_eq_true_iff.mp hp).2

/-- Character expansion of the composed date string. -/
theorem composeEfaDateString_data (y mo d h mi : String) :
    (composeEfaDateString y mo d h mi).data =
      y.data ++ '-' :: ((jsPadStart2 mo).data ++ '-' :: ((jsPadStart2 d).data ++
        'T' :: ((jsPadStart2 h).data ++ ':' :: ((jsPadStart2 mi).data ++ [':', '0', '0'])))) := by
  simp [composeEfaDateString, String.data_append]

/-- If the composed date string parses as a valid date, every field of
the fragment consists of decimal digits only: the four padded components
are at least two characters each and the total is nineteen, so the year
takes at most four characters; the separator after the year must land on
a hyphen position of the pattern, which pins the year to exactly four
characters and every padded component to exactly two, aligning each
field with digit positions. -/
theorem valid_fields_digits (y mo d h mi : String)
    (hv : (jsDateParse (composeEfaDateString y mo d h mi)).isSome = true) :
    y.data.all Char.isDigit = true ∧ mo.data.all Char.isDigit = true ∧
      d.data.all Char.isDigit = true ∧ h.data.all Char.isDigit = true ∧
      mi.data.all Char.isDigit = true := by
  unfold jsDateParse at hv
  split at hv
  case h_2 => simp at hv
  case h_1 y1 y2 y3 y4 s1 mo1 mo2 s2 d1c d2c s3 h1c h2c s4 mi1 mi2 s5 se1 se2 heq =>
    rw [composeEfaDateString_data] at heq
    split at hv
    case isFalse => simp at hv
    case isTrue hcond =>
      obtain ⟨hs1, hs2, hs3, hs4, hs5, hy1, hy2, hy3, hy4, hmo1, hmo2, hd1, hd2,
        hh1, hh2, hmi1, hmi2, hse1, hse2⟩ := hcond
      subst hs1
      subst hs2
      subst hs3
      subst hs4
      subst hs5
      set A := y.data with hA
      set B := (jsPadStart2 mo).data with hB
      set C := (jsPadStart2 d).data with hC
      set D := (jsPadStart2 h).data with hD
      set E := (jsPadStart2 mi).data with hE
      have hBlen : 2 ≤ B.length := by rw [hB]; exact jsPadStart2_data_length mo
      have hClen : 2 ≤ C.length := by rw [hC]; exact jsPadStart2_data_length d
      have hDlen : 2 ≤ D.length := by rw [hD]; exact jsPadStart2_data_length h
      have hElen : 2 ≤ E.length := by rw [hE]; exact jsPadStart2_data_length mi
      have hlen := congrArg List.length heq
      simp only [List.length_append, List.length_cons, List.length_nil] at hlen
      have hdrop1 : ([y1, y2, y3, y4, '-', mo1, mo2, '-', d1c, d2c, 'T', h1c, h2c, ':',
          mi1, mi2, ':', se1, se2] : List Char).drop A.length =
          '-' :: (B ++ '-' :: (C ++ 'T' :: (D ++ ':' :: (E ++ [':', '0', '0'])))) := by
        rw [← heq]
        exact List.drop_left A _
      have htake : ([y1, y2, y3, y4, '-', mo1, mo2, '-', d1c, d2c, 'T', h1c, h2c, ':',
          mi1, mi2, ':', se1, se2] : List Char).take A.length = A := by
        rw [← heq]
        exact List.take_left A _
      have hcases : A.length = 0 ∨ A.length = 1 ∨ A.length = 2 ∨ A.length = 3 ∨
          A.length = 4 := by omega
      rcases hcases with hc | hc | hc | hc | hc
      · rw [hc, List.drop_zero] at hdrop1
        injection hdrop1 with hhead _
        rw [hhead] at hy1
        exact absurd hy1 (by decide)
      · rw [hc] at hdrop1
        simp only [List.drop_succ_cons, List.drop_zero] at hdrop1
        injection hdrop1 with hhead _
        rw [hhead] at hy2
        exact absurd hy2 (by decide)
      · rw [hc] at hdrop1
        simp only [List.drop_succ_cons, List.drop_zero] at hdrop1
        injection hdrop1 with hhead _
        rw [hhead] at hy3
        exact absurd hy3 (by decide)
      · rw [hc] at hdrop1
        simp only [List.drop_succ_cons, List.drop_zero] at hdrop1
        injection hdrop1 with hhead _
        rw [hhead] at hy4
        exact absurd hy4 (by decide)
      · rw [hc] at hdrop1 htake
        simp only [List.drop_succ_cons, List.drop_zero] at hdrop1
        simp only [List.take_succ_cons, List.take_zero] at htake
        injection hdrop1 with _ heq2
        have hB2 : B.length = 2 := by omega
        have hC2 : C.length = 2 := by omega
        have hD2 : D.length = 2 := by omega
        have hE2 : E.length = 2 := by omega
        obtain ⟨b1, b2, hBeq⟩ := List.length_eq_two.mp hB2
        obtain ⟨c1, c2, hCeq⟩ := List.length_eq_two.mp hC2
        obtain ⟨e1, e2, hDeq⟩ := List.length_eq_two.mp hD2
        obtain ⟨g1, g2, hEeq⟩ := List.length_eq_two.mp hE2
        rw [hBeq, hCeq, hDeq, hEeq] at heq2
        simp only [List.cons_append, List.nil_append, List.cons.injEq, and_true] at heq2
        obtain ⟨hb1, hb2, -, hcc1, hcc2, -, hhe1, hhe2, -, hg1, hg2, -, -, -⟩ := heq2
        refine ⟨?_, ?_, ?_, ?_, ?_⟩
        · rw [← htake]
          simp [hy1, hy2, hy3, hy4]
        · apply digits_of_pad
          rw [← hB, hBeq]
          simp only [List.all_cons, List.all_nil, Bool.and_true]
          rw [← hb1, ← hb2]
          simp [hmo1, hmo2]
        · apply digits_of_pad
          rw [← hC, hCeq]
          simp only [List.all_cons, List.all_nil, Bool.and_true]
          rw [← hcc1, ← hcc2]
          simp [hd1, hd2]
        · apply digits_of_pad
          rw [← hD, hDeq]
          simp only [List.all_cons, List.all_nil, Bool.and_true]
          rw [← hhe1, ← hhe2]
          simp [hh1, hh2]
        · apply digits_of_pad
          rw [← hE, hEeq]
          simp only [List.all_cons, List.all_nil, Bool.and_true]
          rw [← hg1, ← hg2]
          simp [hmi1, hmi2]

/-- Claim C7 (confirmed): the Temporal Normalizer yields an Instant
exactly when all five fields are present, individually numeric, and the
composed zero-padded `YYYY-MM-DDTHH:MM:00` string parses as a valid
calendar instant; the produced value is that composed instant; absent or
malformed input yields unavailable, and the function is total (never
throws). -/
theorem parseEfaDateTime_spec (f : EfaDateTime) :
    ((parseEfaDateTime (some f)).isSome = true ↔
      allFieldsPresent f = true ∧ allFieldsNumeric f = true ∧
        (jsDateParse (composedString f)).isSome = true) ∧
    parseEfaDateTime (some f) =
      (if allFieldsPresent f = true then jsDateParse (composedString f) else none) ∧
    parseEfaDateTime none = none := by
  have heqn : parseEfaDateTime (some f) =
      (if allFieldsPresent f = true then jsDateParse (composedString f) else none) := by
    obtain ⟨fy, fmo, fd, fh, fmi⟩ := f
    rcases fy with _ | ys <;> rcases fmo with _ | mos <;> rcases fd with _ | dds <;>
      rcases fh with _ | hhs <;> rcases fmi with _ | mms <;>
      simp [parseEfaDateTime, allFieldsPresent, composedString]
  refine ⟨?_, heqn, rfl⟩
  constructor
  · intro hv
    rw [heqn] at hv
    by_cases hp : allFieldsPresent f = true
    · rw [if_pos hp] at hv
      refine ⟨hp, ?_, hv⟩
      have hdg := valid_fields_digits (f.year.getD "") (f.month.getD "") (f.day.getD "")
        (f.hour.getD "") (f.minute.getD "") hv
      unfold allFieldsNumeric fieldDigits
      rw [hdg.1, hdg.2.1, hdg.2.2.1, hdg.2.2.2.1, hdg.2.2.2.2]
      rfl
    · rw [if_neg hp] at hv
      simp at hv
  · rintro ⟨hp, -, hvalid⟩
    rw [heqn, if_pos hp]
    exact hvalid
